import Mathlib

/-!
# Exec interception: `exec_interceptor.c` and `alpine_gcc_interceptor.c`

A shallow embedding of the two `LD_PRELOAD` interposers of the repository.

* A C string is the list of its characters before the terminating NUL
  (`CStr`); a nullable `const char *` is an `Option CStr`.
* A NULL-terminated vector (`argv`, `envp`) is the list of its entries before
  the terminating NULL.
* A pointer into a string (the result of `strstr`, `strchr`, `strrchr`) is the
  suffix of the string that starts at the pointed-to character.
* The operating system is a record `Env` (working directory, executability of
  paths, the `environ` vector, the outcome of `dlsym` and `malloc`).
* A launch function does not return a number here but the `Outcome` that says
  which primitive it ends in and with which arguments; the value the C function
  returns is the value of that primitive.
* Diagnostic output (`printf`, `fprintf`, `perror`, the `ALPINE_INTERCEPTOR_DEBUG`
  blocks) is not part of the model.
* `cmd_len` and the results of `snprintf` are C `int`s and the loop test compares in
  `size_t`: they are integers with the conversions written out (`snprintf_ret`,
  `to_size_t`, `wrap_int`; a signed overflow wraps as on x86-64). The entry count
  `argc` and the loop indices stay far below `INT_MAX` for a vector that fits in
  memory and are natural numbers.
* `strdup` in `execvp` has no failure branch in the source and none here;
  `alpine_gcc_interceptor.c` calls `orig_execve` and `orig_execvp` without testing
  them, and they are taken as resolved.
-/

/-- Contents of a C string, terminator excluded. -/
abbrev CStr := List Char

/-! ## The C library functions the sources call -/

/-- Pointer returned by `strstr(haystack, needle)`: the suffix of `haystack`
at the first occurrence of `needle`, `none` for NULL. -/
def strstr : CStr → CStr → Option CStr
  | [], needle => if needle = [] then some [] else none
  | c :: cs, needle =>
    if needle.isPrefixOf (c :: cs) then some (c :: cs) else strstr cs needle

/-- Pointer returned by `strchr(s, c)` for a character `c` other than NUL: the suffix of
`s` at the first `c`. -/
def strchr : CStr → Char → Option CStr
  | [], _ => none
  | x :: xs, c => if x = c then some (x :: xs) else strchr xs c

/-- Pointer returned by `strrchr(s, c)` for a character `c` other than NUL: the suffix
of `s` at the last `c`. -/
def strrchr : CStr → Char → Option CStr
  | [], _ => none
  | x :: xs, c =>
    match strrchr xs c with
    | some r => some r
    | none => if x = c then some (x :: xs) else none

/-- Sign of `strcmp(a, b)`: the C standard fixes only the sign of the result. -/
def strcmp : CStr → CStr → Int
  | [], [] => 0
  | [], _ :: _ => -1
  | _ :: _, [] => 1
  | a :: as, b :: bs =>
    if a = b then strcmp as bs else if a.toNat < b.toNat then -1 else 1

/-- Largest value of a C `int`. -/
def INT_MAX : Nat := 2147483647

/-- Value returned by `snprintf` when the fully formatted output has `n`
characters: `n`, or `-1` (EOVERFLOW) when `n` does not fit an `int`. -/
def snprintf_ret (n : Nat) : Int :=
  if n ≤ INT_MAX then (n : Int) else -1

/-- Characters `snprintf(dst, size, ...)` stores in `dst` before the
terminator when the fully formatted output is `text` and `size` is
positive: the first `size - 1` of them. -/
def snprintf_stored (size : Nat) (text : CStr) : CStr :=
  text.take (size - 1)

/-- Conversion of an `int` to `size_t` (64 bits), as the usual arithmetic
conversions do when an `int` meets a `size_t`. -/
def to_size_t (i : Int) : Nat :=
  (i % 18446744073709551616).toNat

/-- Two's-complement wrap of a mathematical integer into the range of `int`. -/
def wrap_int (i : Int) : Int :=
  (i + 2147483648) % 4294967296 - 2147483648

/-- Tokens that `strtok(s, d)`, `strtok(NULL, d)`, ... return in turn until NULL, for a
one-character delimiter set: the maximal non-empty runs of characters other than
`delim`. `acc` is the current run, reversed. -/
def strtok_tokens_aux (delim : Char) : CStr → CStr → List CStr
  | [], acc => if acc = [] then [] else [acc.reverse]
  | c :: cs, acc =>
    if c = delim then
      if acc = [] then strtok_tokens_aux delim cs []
      else acc.reverse :: strtok_tokens_aux delim cs []
    else strtok_tokens_aux delim cs (c :: acc)

/-- Tokens of `s` in the order successive `strtok` calls return them. -/
def strtok_tokens (s : CStr) (delim : Char) : List CStr :=
  strtok_tokens_aux delim s []

/-! ## The process environment -/

/-- What the interposers observe of the operating system. -/
structure Env where
  /-- Whether `dlsym(RTLD_NEXT, "execve")` yields a non-null pointer. -/
  dlsym_execve : Bool
  /-- Current working directory, `none` when it cannot be determined. -/
  cwd : Option CStr
  /-- Answer to `access(path, X_OK) == 0`. -/
  access_x : CStr → Bool
  /-- Whether the `malloc` of the new argument vector succeeds. -/
  malloc_ok : Bool
  /-- Entries `NAME=value` of the `environ` vector. -/
  environ : List CStr

/-- Result of `getcwd(buf, size)`: the directory when it is known and fits `buf`
with its terminator, NULL otherwise. -/
def getcwd (env : Env) (size : Nat) : Option CStr :=
  match env.cwd with
  | none => none
  | some d => if d.length + 1 ≤ size then some d else none

/-- Result of `getenv(name)`: the value of the first `name=value` entry of
`environ`. -/
def getenv (env : Env) (name : CStr) : Option CStr :=
  match env.environ.find? (fun e => (name ++ ['=']).isPrefixOf e) with
  | none => none
  | some e => some (e.drop (name.length + 1))

namespace AlpineGccInterceptor

/-- Source `is_alpine_binary` of `alpine_gcc_interceptor.c`. -/
def is_alpine_binary (pathname : Option CStr) : Int :=
  match pathname with
  | none => 0
  | some p =>
    if (strstr p "/.local/alpine/".toList).isSome ||
        (strstr p "/alpine/".toList).isSome ||
        (strstr p "x86_64-alpine-linux-musl".toList).isSome then 1
    else 0

/-- Source `is_gcc_subprocess` of `alpine_gcc_interceptor.c`. -/
def is_gcc_subprocess (pathname : Option CStr) : Int :=
  match pathname with
  | none => 0
  | some p =>
    let basename : CStr :=
      match strrchr p '/' with
      | none => p
      | some q => q.drop 1
    if strcmp basename "cc1".toList = 0 ||
        strcmp basename "collect2".toList = 0 ||
        strcmp basename "ld".toList = 0 ||
        strcmp basename "as".toList = 0 then 1
    else 0

/-- What a launch function of `alpine_gcc_interceptor.c` ends in. -/
inductive Outcome where
  /-- It calls `orig_execve(pathname, argv, envp)` once and returns its result. -/
  | orig_execve (pathname : Option CStr) (argv envp : List CStr)
  /-- It calls `orig_execvp(file, argv)` once and returns its result. -/
  | orig_execvp (file : CStr) (argv : List CStr)
  /-- It calls `system(cmd)` once and returns its result. -/
  | system (cmd : CStr)
  /-- It returns `code` without launching anything. -/
  | ret (code : Int)
  /-- It reads memory the C standard gives no meaning to. -/
  | undefined
  deriving DecidableEq

/-- One `snprintf(cmd + off, size, ...)` call on the command buffer, with its
fully formatted output `text`. -/
structure Write where
  off : Int
  size : Nat
  text : CStr
  deriving DecidableEq

/-- Number of bytes a write stores, terminator included. -/
def Write.bytes (w : Write) : Nat :=
  (snprintf_stored w.size w.text).length + 1

/-- Local state of `execute_in_alpine_container` while the command is built:
the string held by `char cmd[8192]`, the counter `cmd_len`, and the
`snprintf` calls made on `cmd` so far. -/
structure CmdState where
  cmd : CStr
  cmd_len : Int
  writes : List Write
  deriving DecidableEq

/-- String held by a buffer after `snprintf(buf + off, size, ...)` with fully
formatted output `text`, when the buffer held the string `buf` before. -/
def store_at (buf : CStr) (off : Int) (size : Nat) (text : CStr) : CStr :=
  if size = 0 then buf
  else if 0 ≤ off ∧ off.toNat ≤ buf.length then
    buf.take off.toNat ++ snprintf_stored size text
  else buf

/-- Fully formatted output of the first `snprintf` of `execute_in_alpine_container`. -/
def command_base (cwd pathname : CStr) : CStr :=
  "docker run --rm -i --network=none ".toList ++
  "-v '".toList ++ cwd ++ ":/workspace' -w /workspace ".toList ++
  "-v '".toList ++ pathname ++ ":".toList ++ pathname ++ ":ro' ".toList ++
  "alpine:latest ".toList ++ pathname

/-- State after `int cmd_len = snprintf(cmd, sizeof(cmd), ...)`. -/
def init_state (cwd pathname : CStr) : CmdState :=
  { cmd := snprintf_stored 8192 (command_base cwd pathname)
    cmd_len := snprintf_ret (command_base cwd pathname).length
    writes := [⟨0, 8192, command_base cwd pathname⟩] }

/-- Fully formatted output of the `snprintf` in the loop body for `argv[i] = arg`. -/
def arg_text (arg : CStr) : CStr :=
  if (strchr arg ' ').isSome || (strchr arg '\'').isSome || (strchr arg '"').isSome then
    " '".toList ++ arg ++ "'".toList
  else " ".toList ++ arg

/-- Body of the argument loop: `cmd_len += snprintf(cmd + cmd_len, sizeof(cmd) - cmd_len, ...)`.
The size is computed in `size_t`, the sum in `int`. -/
def append_arg (st : CmdState) (arg : CStr) : CmdState :=
  let size : Nat := (8192 + 18446744073709551616 - to_size_t st.cmd_len) % 18446744073709551616
  { cmd := store_at st.cmd st.cmd_len size (arg_text arg)
    cmd_len := wrap_int (st.cmd_len + snprintf_ret (arg_text arg).length)
    writes := st.writes ++ [⟨st.cmd_len, size, arg_text arg⟩] }

/-- Loop `for (...; argv[i] && cmd_len < sizeof(cmd) - 100; i++)` over the entries
`argv[i], argv[i+1], ...` that precede the terminator. -/
def append_args : List CStr → CmdState → CmdState
  | [], st => st
  | arg :: rest, st =>
    if to_size_t st.cmd_len < 8092 then append_args rest (append_arg st arg) else st

/-- Command construction of `execute_in_alpine_container`. The loop starts at
`argv[1]`: on a vector without `argv[0]` it reads past the terminator. -/
def build_command (cwd pathname : CStr) (argv : List CStr) : Option CmdState :=
  match argv with
  | [] => none
  | _ :: rest => some (append_args rest (init_state cwd pathname))

/-- Source `execute_in_alpine_container` of `alpine_gcc_interceptor.c`. -/
def execute_in_alpine_container (env : Env) (pathname : Option CStr)
    (argv _envp : List CStr) : Outcome :=
  match getcwd env 4096 with
  | none => .ret (-1)
  | some cwd =>
    match pathname with
    | none => .undefined
    | some p =>
      match build_command cwd p argv with
      | none => .undefined
      | some st => .system st.cmd

/-- Source `execve` of `alpine_gcc_interceptor.c`. -/
def execve (env : Env) (pathname : Option CStr) (argv envp : List CStr) : Outcome :=
  if is_alpine_binary pathname ≠ 0 ∧ is_gcc_subprocess pathname ≠ 0 then
    execute_in_alpine_container env pathname argv envp
  else .orig_execve pathname argv envp

/-- The `while (dir)` loop of `execvp` over the directories `strtok` yields:
the `full_path` at which it breaks, `none` when `dir` runs out. -/
def path_search (env : Env) (file : CStr) : List CStr → Option CStr
  | [] => none
  | dir :: rest =>
    let full_path := snprintf_stored 4096 (dir ++ "/".toList ++ file)
    if env.access_x full_path then some full_path else path_search env file rest

/-- First half of `execvp`: the contents of `full_path` when control reaches the
classification, `none` when `execvp` returns `orig_execvp(file, argv)` before
(no `PATH`, or `dir` ran out). -/
def find_full_path (env : Env) (file : CStr) : Option CStr :=
  if (strchr file '/').isSome then some (file.take 4095)
  else
    match getenv env "PATH".toList with
    | none => none
    | some path_env => path_search env file (strtok_tokens path_env ':')

/-- Source `execvp` of `alpine_gcc_interceptor.c`. -/
def execvp (env : Env) (file : CStr) (argv : List CStr) : Outcome :=
  match find_full_path env file with
  | none => .orig_execvp file argv
  | some full_path =>
    if is_alpine_binary (some full_path) ≠ 0 ∧ is_gcc_subprocess (some full_path) ≠ 0 then
      execute_in_alpine_container env (some full_path) argv env.environ
    else .orig_execvp file argv

end AlpineGccInterceptor

namespace ExecInterceptor

/-- What a launch function of `exec_interceptor.c` ends in. -/
inductive Outcome where
  /-- It calls `real_execve(pathname, argv, envp)` once and returns its result. -/
  | real_execve (pathname : CStr) (argv envp : List CStr)
  /-- It returns `code` without launching anything. -/
  | ret (code : Int)
  /-- It hands `real_execve` a vector whose terminator was never written. -/
  | undefined
  deriving DecidableEq

/-- Source `is_alpine_binary` of `exec_interceptor.c`. -/
def is_alpine_binary (pathname : CStr) : Int :=
  if (strstr pathname ".local/alpine/".toList).isSome then 1
  else if (strstr pathname "cc1".toList).isSome ||
      (strstr pathname "collect2".toList).isSome ||
      (strstr pathname "lto1".toList).isSome ||
      (strstr pathname "lto-wrapper".toList).isSome then 1
  else 0

/-- One slot of an array of `char *`: `none` while nothing was stored in it,
`some none` for NULL, `some (some s)` for a pointer to the string `s`. -/
abbrev Slot := Option (Option CStr)

/-- The array `argv[0 .. argc]` as it lies in memory, terminator included. -/
def argv_array (argv : List CStr) : List Slot :=
  argv.map (fun a => some (some a)) ++ [some none]

/-- Body `new_argv[i + 1] = argv[i]` of the copy loop. -/
def copy_step (argv_mem : List Slot) (new_argv : List Slot) (i : Nat) : List Slot :=
  new_argv.set (i + 1) (argv_mem.getD i none)

/-- The array `new_argv` after `malloc((argc + 2) * sizeof(char*))`, the two
assignments and the loop `for (int i = 1; i <= argc; i++)`. -/
def fill_new_argv (alpine_ld pathname : CStr) (argv : List CStr) : List Slot :=
  let argc := argv.length
  let fresh : List Slot := List.replicate (argc + 2) none
  let with_ld := fresh.set 0 (some (some alpine_ld))
  let with_path := with_ld.set 1 (some (some pathname))
  (List.range' 1 argc).foldl (copy_step (argv_array argv)) with_path

/-- The vector a launch primitive reads from an array of `char *`: the entries
before the first NULL, or `none` when it meets a slot that was never written
or the end of the array first. -/
def read_vector : List Slot → Option (List CStr)
  | [] => none
  | none :: _ => none
  | some none :: _ => some []
  | some (some s) :: rest => (read_vector rest).map (fun v => s :: v)

/-- Source `execve` of `exec_interceptor.c`. -/
def execve (env : Env) (pathname : CStr) (argv envp : List CStr) : Outcome :=
  if !env.dlsym_execve then .ret (-1)
  else if is_alpine_binary pathname ≠ 0 then
    match getcwd env 1024 with
    | none => .real_execve pathname argv envp
    | some cwd =>
      let alpine_ld := snprintf_stored 2048 (cwd ++ "/.local/alpine/lib/ld-musl-x86_64.so.1".toList)
      if !env.access_x alpine_ld then .real_execve pathname argv envp
      else if !env.malloc_ok then .real_execve pathname argv envp
      else
        match read_vector (fill_new_argv alpine_ld pathname argv) with
        | none => .undefined
        | some new_argv => .real_execve alpine_ld new_argv envp
  else .real_execve pathname argv envp

/-- Source `execv` of `exec_interceptor.c`. -/
def execv (env : Env) (pathname : CStr) (argv : List CStr) : Outcome :=
  execve env pathname argv env.environ

/-- Source `execvp` of `exec_interceptor.c`. -/
def execvp (env : Env) (file : CStr) (argv : List CStr) : Outcome :=
  execve env file argv env.environ

end ExecInterceptor

/-! ## Specification-side definitions and example hosts -/

/-- Final component of a path: what follows the last `/`, the whole path when it has none. -/
def final_component (p : CStr) : CStr :=
  (p.reverse.takeWhile (fun c => c != '/')).reverse

namespace AlpineGccInterceptor

/-- Names `is_gcc_subprocess` compares the final component with. -/
def gcc_subprocess_names : List CStr :=
  ["cc1".toList, "collect2".toList, "ld".toList, "as".toList]

end AlpineGccInterceptor

namespace ExecInterceptor

/-- Path of the alternate loader below the working directory `cwd`. -/
def loader_path (cwd : CStr) : CStr :=
  cwd ++ "/.local/alpine/lib/ld-musl-x86_64.so.1".toList

/-- A directory name of `256 * n` characters: `n` components of 255 letters. -/
def wide_dir : Nat → CStr
  | 0 => []
  | n + 1 => '/' :: List.replicate 255 'a' ++ wide_dir n

/-- A working directory of 1024 characters. -/
def long_cwd : CStr := wide_dir 4

/-- A host whose working directory is `long_cwd`, with the alternate loader
installed and executable below it. -/
def long_cwd_env : Env :=
  { dlsym_execve := true
    cwd := some long_cwd
    access_x := fun p => p == loader_path long_cwd
    malloc_ok := true
    environ := ["PATH=/usr/bin".toList] }

end ExecInterceptor

namespace AlpineGccInterceptor

/-- A write on `cmd` that stays inside the 8192 bytes of the buffer and starts
below offset 8092. -/
def Write.ok (w : Write) : Prop :=
  0 ≤ w.off ∧ w.off < 8092 ∧ 0 < w.size ∧ (w.size : Int) = 8192 - w.off ∧
    w.off + (w.bytes : Int) ≤ 8192

/-- Loop invariant of the command construction. -/
def CmdState.inv (st : CmdState) : Prop :=
  (-2147483648 ≤ st.cmd_len ∧ st.cmd_len ≤ 2147483647) ∧ st.cmd.length ≤ 8191 ∧
    ∀ w ∈ st.writes, w.ok

/-- An argument as the specification quotes it: between single quotes when it
contains a space, a single quote or a double quote, verbatim otherwise. -/
def quote_argument (arg : CStr) : CStr :=
  if ' ' ∈ arg ∨ '\'' ∈ arg ∨ '"' ∈ arg then "'".toList ++ arg ++ "'".toList else arg

/-- The arguments as the specification renders them: each one quoted and
preceded by a single space. -/
def rendered_arguments : List CStr → CStr
  | [] => []
  | arg :: rest => " ".toList ++ quote_argument arg ++ rendered_arguments rest

/-- The command line as the specification renders it for `cwd`, `pathname` and
`argv`: the fixed prefix, then `argv[1:]`. -/
def rendered_command (cwd pathname : CStr) (argv : List CStr) : CStr :=
  "docker run --rm -i --network=none -v '".toList ++ cwd ++
  ":/workspace' -w /workspace -v '".toList ++ pathname ++ ":".toList ++ pathname ++
  ":ro' alpine:latest ".toList ++ pathname ++ rendered_arguments (argv.drop 1)

/-- The ordered list of directories of the search path: the non-empty components
of `PATH` between colons, none when `PATH` is unset. -/
def search_path (env : Env) : List CStr :=
  match getenv env "PATH".toList with
  | none => []
  | some path_env => strtok_tokens path_env ':'

end AlpineGccInterceptor

/-- The value of `PATH` that lists the directories `dirs` in order. -/
def join_colon : List CStr → CStr
  | [] => []
  | [d] => d
  | d :: e :: rest => d ++ ':' :: join_colon (e :: rest)

namespace AlpineGccInterceptor

/-- A directory name of `89 * n` characters: `n` components of 88 letters. -/
def deep_dir : Nat → CStr
  | 0 => []
  | n + 1 => '/' :: List.replicate 88 'a' ++ deep_dir n

/-- A directory name of 4094 characters. -/
def long_dir : CStr := deep_dir 46

/-- An environment whose `PATH` lists `long_dir` before `/opt/alpine/bin`, where
`long_dir/` is searchable and `/opt/alpine/bin/cc1` is executable. -/
def long_path_env : Env :=
  { dlsym_execve := true
    cwd := some "/home/user".toList
    access_x := fun p => p == long_dir ++ "/".toList || p == "/opt/alpine/bin/cc1".toList
    malloc_ok := true
    environ := ["PATH".toList ++ '=' :: (long_dir ++ ':' :: "/opt/alpine/bin".toList)] }

end AlpineGccInterceptor

/-- A host where the alternate loader is installed below `/home/user` and
`/usr/bin/ls` is executable. -/
def host_env : Env :=
  { dlsym_execve := true
    cwd := some "/home/user".toList
    access_x := fun p =>
      p == "/home/user/.local/alpine/lib/ld-musl-x86_64.so.1".toList ||
      p == "/usr/bin/ls".toList || p == "/opt/alpine/bin/cc1".toList
    malloc_ok := true
    environ := ["HOME=/home/user".toList, "PATH=/usr/bin:/opt/alpine/bin".toList] }

/-- The same host without an executable alternate loader. -/
def host_env_no_loader : Env :=
  { host_env with access_x := fun p => p == "/usr/bin/ls".toList }

/-- The same host when the working directory cannot be determined. -/
def host_env_no_cwd : Env :=
  { host_env with cwd := none }

/-! ## Theorems -/

theorem strstr_isSome_iff (haystack needle : CStr) :
    (strstr haystack needle).isSome ↔ needle <:+: haystack := by
  induction haystack with
  | nil =>
    by_cases h : needle = [] <;> simp [strstr, h]
  | cons c cs ih =>
    rw [strstr, List.infix_cons_iff]
    by_cases h : needle.isPrefixOf (c :: cs) = true
    · simp only [h, if_true, Option.isSome_some, true_iff]
      exact Or.inl (List.isPrefixOf_iff_prefix.mp h)
    · simp only [h, Bool.false_eq_true, if_false, ih]
      constructor
      · exact Or.inr
      · rintro (hp | hi)
        · exact absurd (List.isPrefixOf_iff_prefix.mpr hp) h
        · exact hi

theorem strchr_isSome_iff (s : CStr) (c : Char) : (strchr s c).isSome ↔ c ∈ s := by
  induction s with
  | nil => simp [strchr]
  | cons x xs ih =>
    rw [strchr]
    by_cases h : x = c
    · simp [h]
    · simp [h, ih, Ne.symm h]

theorem strcmp_eq_zero_iff (a b : CStr) : strcmp a b = 0 ↔ a = b := by
  induction a generalizing b with
  | nil => cases b <;> simp [strcmp]
  | cons x xs ih =>
    cases b with
    | nil => simp [strcmp]
    | cons y ys =>
      rw [strcmp]
      by_cases h : x = y
      · simp [h, ih]
      · by_cases h2 : x.toNat < y.toNat <;> simp [h, h2]

theorem strrchr_eq_none_iff (s : CStr) (c : Char) : strrchr s c = none ↔ c ∉ s := by
  induction s with
  | nil => simp [strrchr]
  | cons x xs ih =>
    rw [strrchr]
    cases hr : strrchr xs c with
    | some r =>
      have : ¬ c ∉ xs := fun h => by rw [ih.mpr h] at hr; cases hr
      simp only [not_not] at this
      simp [this]
    | none =>
      have hc : c ∉ xs := ih.mp hr
      by_cases h : x = c
      · simp [h]
      · simp [h, hc, Ne.symm h]

theorem strrchr_append_cons (pre name : CStr) (c : Char) (h : c ∉ name) :
    strrchr (pre ++ c :: name) c = some (c :: name) := by
  induction pre with
  | nil =>
    simp [strrchr, (strrchr_eq_none_iff name c).mpr h]
  | cons x xs ih =>
    simp [strrchr, ih]

theorem strrchr_eq_some (s q : CStr) (c : Char) (h : strrchr s c = some q) :
    ∃ pre name, s = pre ++ c :: name ∧ q = c :: name ∧ c ∉ name := by
  induction s generalizing q with
  | nil => simp [strrchr] at h
  | cons x xs ih =>
    rw [strrchr] at h
    cases hr : strrchr xs c with
    | some r =>
      rw [hr] at h
      simp only [Option.some.injEq] at h
      subst h
      obtain ⟨pre, name, h1, h2, h3⟩ := ih _ hr
      exact ⟨x :: pre, name, by rw [h1]; rfl, h2, h3⟩
    | none =>
      rw [hr] at h
      by_cases hx : x = c
      · simp only [hx, if_true, Option.some.injEq] at h
        exact ⟨[], xs, by rw [hx]; rfl, h.symm, (strrchr_eq_none_iff xs c).mp hr⟩
      · simp [hx] at h

theorem final_component_of_not_mem (p : CStr) (h : '/' ∉ p) : final_component p = p := by
  unfold final_component
  rw [List.takeWhile_eq_self_iff.mpr, List.reverse_reverse]
  intro c hc
  have : c ∈ p := List.mem_reverse.mp hc
  simp only [bne_iff_ne, ne_eq]
  rintro rfl
  exact h this

theorem final_component_append_cons (pre name : CStr) (h : '/' ∉ name) :
    final_component (pre ++ '/' :: name) = name := by
  unfold final_component
  have h1 : (pre ++ '/' :: name).reverse = name.reverse ++ '/' :: pre.reverse := by simp
  have h2 : ∀ c ∈ name.reverse, (c != '/') = true := by
    intro c hc
    have : c ∈ name := List.mem_reverse.mp hc
    simp only [bne_iff_ne, ne_eq]
    rintro rfl
    exact h this
  rw [h1, List.takeWhile_append_of_pos h2, List.takeWhile_cons_of_neg (by simp), List.append_nil,
    List.reverse_reverse]

/-- The pointer `basename` of `is_gcc_subprocess` is the final component. -/
theorem basename_eq_final_component (p : CStr) :
    (match strrchr p '/' with
      | none => p
      | some q => q.drop 1) = final_component p := by
  cases h : strrchr p '/' with
  | none =>
    exact (final_component_of_not_mem p ((strrchr_eq_none_iff p '/').mp h)).symm
  | some q =>
    obtain ⟨pre, name, h1, h2, h3⟩ := strrchr_eq_some p q '/' h
    simp only []
    rw [h1, final_component_append_cons pre name h3, h2]
    rfl

theorem ite_one_zero (P : Prop) [Decidable P] :
    ((if P then (1 : Int) else 0) = 1 ↔ P) ∧ ((if P then (1 : Int) else 0) = 0 ↔ ¬ P) := by
  by_cases h : P <;> simp [h]

namespace AlpineGccInterceptor

theorem is_gcc_subprocess_some (p : CStr) :
    is_gcc_subprocess (some p) =
      if final_component p ∈ gcc_subprocess_names then 1 else 0 := by
  simp only [is_gcc_subprocess, basename_eq_final_component, strcmp_eq_zero_iff,
    gcc_subprocess_names, List.mem_cons, List.mem_singleton, Bool.or_eq_true, decide_eq_true_eq,
    List.not_mem_nil, or_false, or_assoc]

theorem is_alpine_binary_some (p : CStr) :
    is_alpine_binary (some p) =
      if "/.local/alpine/".toList <:+: p ∨ "/alpine/".toList <:+: p ∨
        "x86_64-alpine-linux-musl".toList <:+: p then 1 else 0 := by
  simp only [is_alpine_binary, Bool.or_eq_true, strstr_isSome_iff, or_assoc]

/-- C3 (as the code has it): `is_gcc_subprocess` returns 1 exactly when the final
component of the path is one of `cc1`, `collect2`, `ld`, `as`, compared whole and
case-sensitively, whatever the directory part; otherwise it returns 0. -/
theorem is_gcc_subprocess_iff_final_component (p : CStr) :
    (is_gcc_subprocess (some p) = 1 ↔ final_component p ∈ gcc_subprocess_names) ∧
    (is_gcc_subprocess (some p) = 0 ↔ final_component p ∉ gcc_subprocess_names) := by
  rw [is_gcc_subprocess_some]
  exact ite_one_zero _

/-- C3 fails for the link-time-optimization names: paths whose final component is
`lto1` or `lto-wrapper` are not recognised by `is_gcc_subprocess`. -/
theorem is_gcc_subprocess_rejects_lto :
    final_component "/opt/alpine/libexec/gcc/lto1".toList = "lto1".toList ∧
    is_gcc_subprocess (some "/opt/alpine/libexec/gcc/lto1".toList) = 0 ∧
    final_component "/opt/alpine/libexec/gcc/lto-wrapper".toList = "lto-wrapper".toList ∧
    is_gcc_subprocess (some "/opt/alpine/libexec/gcc/lto-wrapper".toList) = 0 := by
  decide

/-- C4: `is_alpine_binary` returns 1 exactly when its argument is non-null and
contains one of the three marker substrings, and 0 otherwise; in particular it
returns 0 for the null and for the empty path. -/
theorem is_alpine_binary_iff_marker (pathname : Option CStr) :
    (is_alpine_binary pathname = 1 ↔
      ∃ p, pathname = some p ∧ ("/.local/alpine/".toList <:+: p ∨ "/alpine/".toList <:+: p ∨
        "x86_64-alpine-linux-musl".toList <:+: p)) ∧
    (is_alpine_binary pathname = 0 ↔
      ¬ ∃ p, pathname = some p ∧ ("/.local/alpine/".toList <:+: p ∨ "/alpine/".toList <:+: p ∨
        "x86_64-alpine-linux-musl".toList <:+: p)) ∧
    is_alpine_binary none = 0 ∧ is_alpine_binary (some []) = 0 := by
  refine ⟨?_, ?_, rfl, by decide⟩
  · cases pathname with
    | none => simp [is_alpine_binary]
    | some p =>
      rw [is_alpine_binary_some]
      simp only [Option.some.injEq, exists_eq_left']
      exact (ite_one_zero _).1
  · cases pathname with
    | none => simp [is_alpine_binary]
    | some p =>
      rw [is_alpine_binary_some]
      simp only [Option.some.injEq, exists_eq_left']
      exact (ite_one_zero _).2

theorem is_alpine_binary_zero_or_one (pathname : Option CStr) :
    is_alpine_binary pathname = 0 ∨ is_alpine_binary pathname = 1 := by
  cases pathname with
  | none => exact Or.inl rfl
  | some p =>
    rw [is_alpine_binary_some]
    split
    · exact Or.inr rfl
    · exact Or.inl rfl

theorem is_gcc_subprocess_zero_or_one (pathname : Option CStr) :
    is_gcc_subprocess pathname = 0 ∨ is_gcc_subprocess pathname = 1 := by
  cases pathname with
  | none => exact Or.inl rfl
  | some p =>
    rw [is_gcc_subprocess_some]
    split
    · exact Or.inr rfl
    · exact Or.inl rfl

theorem execute_in_alpine_container_ne_orig_execve (env : Env) (pathname q : Option CStr)
    (argv envp a e : List CStr) :
    execute_in_alpine_container env pathname argv envp ≠ .orig_execve q a e := by
  unfold execute_in_alpine_container
  split
  · simp
  · split
    · simp
    · split <;> simp

theorem classified_iff (pathname : Option CStr) :
    (is_alpine_binary pathname ≠ 0 ∧ is_gcc_subprocess pathname ≠ 0) ↔
      (is_alpine_binary pathname = 1 ∧ is_gcc_subprocess pathname = 1) := by
  rcases is_alpine_binary_zero_or_one pathname with h1 | h1 <;>
    rcases is_gcc_subprocess_zero_or_one pathname with h2 | h2 <;> simp [h1, h2]

theorem execve_eq_ite (env : Env) (pathname : Option CStr) (argv envp : List CStr) :
    execve env pathname argv envp =
      (if is_alpine_binary pathname = 1 ∧ is_gcc_subprocess pathname = 1 then
        execute_in_alpine_container env pathname argv envp
      else .orig_execve pathname argv envp) := by
  unfold execve
  simp only [classified_iff]

/-- C7: `execve` of the sandboxed-delegation deployment hands the request to
`execute_in_alpine_container` exactly when `is_alpine_binary` and
`is_gcc_subprocess` both hold for the pathname; in every other case it ends in
one call of `orig_execve` with the identical pathname, argv and envp, whose result
it returns. -/
theorem execve_dispatch (env : Env) (pathname : Option CStr) (argv envp : List CStr) :
    execve env pathname argv envp =
      (if is_alpine_binary pathname = 1 ∧ is_gcc_subprocess pathname = 1 then
        execute_in_alpine_container env pathname argv envp
      else .orig_execve pathname argv envp) ∧
    (execve env pathname argv envp = .orig_execve pathname argv envp ↔
      ¬ (is_alpine_binary pathname = 1 ∧ is_gcc_subprocess pathname = 1)) := by
  refine ⟨execve_eq_ite env pathname argv envp, ?_⟩
  rw [execve_eq_ite]
  by_cases h : is_alpine_binary pathname = 1 ∧ is_gcc_subprocess pathname = 1
  · rw [if_pos h]
    simp only [h, and_self, not_true_eq_false, iff_false]
    exact execute_in_alpine_container_ne_orig_execve env pathname pathname argv envp argv envp
  · rw [if_neg h]
    simp [h]

/-- C7 at `/usr/bin/ls -la`: the request is passed to `orig_execve` unmodified. -/
theorem execve_dispatch_ls :
    execve host_env (some "/usr/bin/ls".toList) ["ls".toList, "-la".toList]
        host_env.environ =
      .orig_execve (some "/usr/bin/ls".toList) ["ls".toList, "-la".toList]
        host_env.environ :=
  ((execve_dispatch _ _ _ _).2).mpr (by decide)

end AlpineGccInterceptor

namespace ExecInterceptor

theorem getcwd_length (env : Env) (size : Nat) (cwd : CStr) (h : getcwd env size = some cwd) :
    cwd.length + 1 ≤ size := by
  unfold getcwd at h
  split at h
  · cases h
  · split at h
    · simp only [Option.some.injEq] at h
      subst h
      assumption
    · cases h

theorem getcwd_of_fit (env : Env) (size : Nat) (cwd : CStr) (h : env.cwd = some cwd)
    (hfit : cwd.length + 1 ≤ size) : getcwd env size = some cwd := by
  unfold getcwd
  rw [h]
  simp only []
  rw [if_pos hfit]

theorem getcwd_too_long (env : Env) (size : Nat) (cwd : CStr) (h : env.cwd = some cwd)
    (hlong : size < cwd.length + 1) : getcwd env size = none := by
  unfold getcwd
  rw [h]
  simp only []
  rw [if_neg (by omega)]

/-- The loader path never overflows `char alpine_ld[2048]`. -/
theorem alpine_ld_eq (env : Env) (cwd : CStr) (h : getcwd env 1024 = some cwd) :
    snprintf_stored 2048 (cwd ++ "/.local/alpine/lib/ld-musl-x86_64.so.1".toList) =
      loader_path cwd := by
  have hl := getcwd_length env 1024 cwd h
  unfold snprintf_stored loader_path
  apply List.take_of_length_le
  simp only [List.length_append]
  have : "/.local/alpine/lib/ld-musl-x86_64.so.1".toList.length = 38 := by decide
  omega

theorem fold_copy_step (src skip pre : List Slot) (hk : pre.length = skip.length + 1) :
    (List.range' skip.length src.length).foldl (copy_step (skip ++ src))
      (pre ++ List.replicate src.length none) = pre ++ src := by
  induction src generalizing skip pre with
  | nil => simp
  | cons x xs ih =>
    have h1 : copy_step (skip ++ x :: xs) (pre ++ List.replicate (xs.length + 1) none) skip.length
        = (pre ++ [x]) ++ List.replicate xs.length none := by
      have hg : (skip ++ x :: xs).getD skip.length none = x := by
        rw [List.getD_eq_getElem?_getD, List.getElem?_append_right (Nat.le_refl _)]
        simp
      unfold copy_step
      rw [hg, ← hk, List.replicate_succ]
      simp
    have h2 : skip ++ x :: xs = (skip ++ [x]) ++ xs := by simp
    have h3 := ih (skip ++ [x]) (pre ++ [x]) (by simp [hk])
    simp only [List.length_cons, List.range'_succ, List.foldl_cons]
    rw [h1, h2]
    simp only [List.length_append, List.length_singleton] at h3
    rw [h3]
    simp

theorem fill_new_argv_cons (alpine_ld pathname arg0 : CStr) (rest : List CStr) :
    fill_new_argv alpine_ld pathname (arg0 :: rest) =
      argv_array (alpine_ld :: pathname :: rest) := by
  unfold fill_new_argv argv_array
  have h := fold_copy_step (rest.map (fun a => some (some a)) ++ [some none])
    [some (some arg0)] [some (some alpine_ld), some (some pathname)] rfl
  simp only [List.length_append, List.length_map, List.length_singleton, List.length_cons,
    List.length_nil] at h
  simp only [List.length_cons, List.map_cons, List.cons_append]
  have h4 : ((List.replicate (rest.length + 1 + 2) (none : Slot)).set 0
      (some (some alpine_ld))).set 1 (some (some pathname)) =
      [some (some alpine_ld), some (some pathname)] ++ List.replicate (rest.length + 1) none := by
    simp [List.replicate_succ]
  rw [h4]
  simpa using h

theorem read_vector_argv_array (v : List CStr) : read_vector (argv_array v) = some v := by
  induction v with
  | nil => rfl
  | cons a as ih =>
    unfold argv_array at ih ⊢
    rw [List.map_cons, List.cons_append, read_vector, ih]
    rfl

/-- C1 (as the code has it): when the real `execve` is resolved, the pathname is
classified foreign, the working directory `cwd` is known and has at most 1023
characters (it fits `char cwd[1024]` with its terminator), the loader
`cwd/.local/alpine/lib/ld-musl-x86_64.so.1` is executable, the new vector is allocated
and `argv` has an `argv[0]`, `execve` ends in the real `execve` on the loader with the
vector `[loader, pathname] ++ argv[1:]` (`argc + 1` entries, then the terminator in the
last of the `argc + 2` slots of `new_argv`) and the envp it was given. -/
theorem execve_loader_substitution (env : Env) (pathname cwd : CStr) (argv envp : List CStr)
    (hsym : env.dlsym_execve = true) (hmem : env.malloc_ok = true)
    (hforeign : is_alpine_binary pathname = 1)
    (hknown : env.cwd = some cwd) (hfit : cwd.length ≤ 1023)
    (hld : env.access_x (loader_path cwd) = true)
    (hargv : argv ≠ []) :
    execve env pathname argv envp =
      .real_execve (loader_path cwd) ([loader_path cwd, pathname] ++ argv.drop 1) envp ∧
    fill_new_argv (loader_path cwd) pathname argv =
      argv_array ([loader_path cwd, pathname] ++ argv.drop 1) ∧
    ([loader_path cwd, pathname] ++ argv.drop 1).length = argv.length + 1 := by
  have hcwd : getcwd env 1024 = some cwd := getcwd_of_fit env 1024 cwd hknown (by omega)
  cases argv with
  | nil => exact absurd rfl hargv
  | cons arg0 rest =>
    refine ⟨?_, fill_new_argv_cons _ _ _ _, by simp⟩
    unfold execve
    rw [if_neg (by simp [hsym]), if_pos (by simp [hforeign]), hcwd]
    simp only []
    rw [alpine_ld_eq env cwd hcwd, if_neg (by simp [hld]), if_neg (by simp [hmem]),
      fill_new_argv_cons, read_vector_argv_array]
    rfl

theorem wide_dir_length (n : Nat) : (wide_dir n).length = 256 * n := by
  induction n with
  | zero => rfl
  | succ n ih =>
    simp only [wide_dir, List.length_cons, List.length_append, List.length_replicate, ih]
    omega

theorem long_cwd_length : long_cwd.length = 1024 := wide_dir_length 4

theorem long_cwd_env_access (p : CStr) :
    long_cwd_env.access_x p = (p == loader_path long_cwd) := rfl

/-- C1 fails on a working directory that is known but does not fit `char cwd[1024]`:
with the 1024-character `long_cwd`, the loader below it executable, the real `execve`
resolved and memory available, `getcwd(cwd, 1024)` returns NULL and `execve` passes the
foreign `cc1` request through unmodified instead of substituting the loader. -/
theorem execve_long_cwd_passes_through :
    long_cwd_env.cwd = some long_cwd ∧ long_cwd.length = 1024 ∧
    long_cwd_env.access_x (loader_path long_cwd) = true ∧
    long_cwd_env.dlsym_execve = true ∧ long_cwd_env.malloc_ok = true ∧
    is_alpine_binary "cc1".toList = 1 ∧
    execve long_cwd_env "cc1".toList ["cc1".toList, "-quiet".toList, "in.c".toList]
        long_cwd_env.environ =
      .real_execve "cc1".toList ["cc1".toList, "-quiet".toList, "in.c".toList]
        long_cwd_env.environ ∧
    execve long_cwd_env "cc1".toList ["cc1".toList, "-quiet".toList, "in.c".toList]
        long_cwd_env.environ ≠
      .real_execve (loader_path long_cwd)
        ([loader_path long_cwd, "cc1".toList] ++
          ["cc1".toList, "-quiet".toList, "in.c".toList].drop 1)
        long_cwd_env.environ := by
  have hexec : execve long_cwd_env "cc1".toList
      ["cc1".toList, "-quiet".toList, "in.c".toList] long_cwd_env.environ =
      .real_execve "cc1".toList ["cc1".toList, "-quiet".toList, "in.c".toList]
        long_cwd_env.environ := by
    have hnone : getcwd long_cwd_env 1024 = none :=
      getcwd_too_long long_cwd_env 1024 long_cwd rfl (by rw [long_cwd_length]; omega)
    unfold execve
    rw [if_neg (by decide), if_pos (by decide), hnone]
  refine ⟨rfl, long_cwd_length, ?_, rfl, rfl, by decide, hexec, ?_⟩
  · rw [long_cwd_env_access, beq_self_eq_true]
  · rw [hexec]
    intro h
    have hp : "cc1".toList = loader_path long_cwd := (Outcome.real_execve.injEq _ _ _ _ _ _ ▸ h).1
    have hl := congrArg List.length hp
    rw [loader_path, List.length_append, long_cwd_length] at hl
    exact absurd hl (by decide)

/-- C8: when the real `execve` is resolved and the pathname is classified foreign,
but the working directory cannot be obtained or the loader below it is not
executable, `execve` ends in the real `execve` with the pathname, argv and envp it
was given. -/
theorem execve_loader_fallback (env : Env) (pathname : CStr) (argv envp : List CStr)
    (hsym : env.dlsym_execve = true)
    (hforeign : is_alpine_binary pathname = 1)
    (hno : getcwd env 1024 = none ∨
      ∃ cwd, getcwd env 1024 = some cwd ∧ env.access_x (loader_path cwd) = false) :
    execve env pathname argv envp = .real_execve pathname argv envp := by
  unfold execve
  rw [if_neg (by simp [hsym]), if_pos (by simp [hforeign])]
  rcases hno with h | ⟨cwd, h, hacc⟩
  · rw [h]
  · rw [h]
    simp only []
    rw [alpine_ld_eq env cwd h, if_pos (by simp [hacc])]

/-- In `exec_interceptor.c`, `execvp` hands a name that is not classified foreign to
`execve`, which ends in the real `execve` with the name as its pathname: no search
path is consulted. -/
theorem execvp_bare_name_no_path_search (env : Env) (file : CStr) (argv : List CStr)
    (hsym : env.dlsym_execve = true) (hnative : is_alpine_binary file = 0) :
    execvp env file argv = .real_execve file argv env.environ := by
  unfold execvp execve
  simp [hsym, hnative]

end ExecInterceptor

theorem snprintf_ret_range (n : Nat) :
    -1 ≤ snprintf_ret n ∧ snprintf_ret n ≤ 2147483647 := by
  unfold snprintf_ret INT_MAX
  split <;> omega

theorem snprintf_ret_of_le (n : Nat) (h : n ≤ 2147483647) : snprintf_ret n = (n : Int) := by
  unfold snprintf_ret INT_MAX
  rw [if_pos h]

theorem wrap_int_range (i : Int) : -2147483648 ≤ wrap_int i ∧ wrap_int i ≤ 2147483647 := by
  unfold wrap_int
  omega

theorem wrap_int_of_range (i : Int) (h1 : -2147483648 ≤ i) (h2 : i ≤ 2147483647) :
    wrap_int i = i := by
  unfold wrap_int
  omega

theorem to_size_t_lt (i : Int) (h1 : -2147483648 ≤ i) (h2 : i ≤ 2147483647)
    (h : to_size_t i < 8092) : 0 ≤ i ∧ i < 8092 ∧ to_size_t i = i.toNat := by
  unfold to_size_t at h ⊢
  omega

theorem to_size_t_ge (i : Int) (h1 : -2147483648 ≤ i) (h2 : i ≤ 2147483647)
    (h : i < 0 ∨ 8092 ≤ i) : 8092 ≤ to_size_t i := by
  unfold to_size_t
  omega

theorem snprintf_stored_length (size : Nat) (text : CStr) (h : 0 < size) :
    (snprintf_stored size text).length + 1 ≤ size := by
  unfold snprintf_stored
  rw [List.length_take]
  omega

namespace AlpineGccInterceptor

theorem init_state_inv (cwd pathname : CStr) : (init_state cwd pathname).inv := by
  refine ⟨?_, ?_, ?_⟩
  · have := snprintf_ret_range (command_base cwd pathname).length
    simp only [init_state]
    omega
  · simp only [init_state, snprintf_stored, List.length_take]
    omega
  · intro w hw
    simp only [init_state, List.mem_singleton] at hw
    subst hw
    have := snprintf_stored_length 8192 (command_base cwd pathname) (by omega)
    simp only [Write.ok, Write.bytes]
    omega

theorem append_arg_inv (st : CmdState) (arg : CStr) (hst : st.inv)
    (hguard : to_size_t st.cmd_len < 8092) : (append_arg st arg).inv := by
  obtain ⟨⟨hlo, hhi⟩, hlen, hw⟩ := hst
  obtain ⟨h0, h1, h2⟩ := to_size_t_lt st.cmd_len hlo hhi hguard
  have hsize : (8192 + 18446744073709551616 - to_size_t st.cmd_len) % 18446744073709551616
      = 8192 - st.cmd_len.toNat := by
    rw [h2]
    omega
  refine ⟨wrap_int_range _, ?_, ?_⟩
  · simp only [append_arg, hsize, store_at]
    split
    · exact hlen
    · split
      · simp only [List.length_append, List.length_take, snprintf_stored]
        omega
      · exact hlen
  · intro w hmem
    simp only [append_arg, List.mem_append, List.mem_singleton] at hmem
    rcases hmem with hmem | hmem
    · exact hw w hmem
    · subst hmem
      have := snprintf_stored_length (8192 - st.cmd_len.toNat) (arg_text arg) (by omega)
      simp only [Write.ok, Write.bytes, hsize]
      omega

theorem append_args_inv (args : List CStr) (st : CmdState) (hst : st.inv) :
    (append_args args st).inv := by
  induction args generalizing st with
  | nil => exact hst
  | cons a rest ih =>
    unfold append_args
    split
    · next hg => exact ih _ (append_arg_inv st a hst hg)
    · exact hst

theorem append_args_stop (args : List CStr) (st : CmdState)
    (h : 8092 ≤ to_size_t st.cmd_len) : append_args args st = st := by
  cases args with
  | nil => rfl
  | cons a rest =>
    unfold append_args
    rw [if_neg (by omega)]

theorem arg_text_eq (arg : CStr) : arg_text arg = " ".toList ++ quote_argument arg := by
  unfold arg_text quote_argument
  simp only [Bool.or_eq_true, strchr_isSome_iff, or_assoc]
  split <;> simp

theorem command_base_eq (cwd pathname : CStr) (argv : List CStr) :
    rendered_command cwd pathname argv =
      command_base cwd pathname ++ rendered_arguments (argv.drop 1) := by
  simp [rendered_command, command_base]

theorem append_args_cmd (args : List CStr) (st : CmdState)
    (hlen : st.cmd_len = (st.cmd.length : Int))
    (hfit : st.cmd.length + (rendered_arguments args).length ≤ 8091) :
    (append_args args st).cmd = st.cmd ++ rendered_arguments args := by
  induction args generalizing st with
  | nil => simp [append_args, rendered_arguments]
  | cons a rest ih =>
    have htext : (arg_text a).length + (rendered_arguments rest).length
        = (rendered_arguments (a :: rest)).length := by
      rw [arg_text_eq]
      simp only [rendered_arguments, List.length_append]
    have hsz : to_size_t st.cmd_len = st.cmd.length := by
      unfold to_size_t
      omega
    have hsize : (8192 + 18446744073709551616 - to_size_t st.cmd_len) % 18446744073709551616
        = 8192 - st.cmd.length := by
      rw [hsz]
      omega
    have hcmd : (append_arg st a).cmd = st.cmd ++ arg_text a := by
      simp only [append_arg, hsize, store_at]
      rw [if_neg (by omega), if_pos (by omega)]
      have h1 : st.cmd_len.toNat = st.cmd.length := by omega
      rw [h1, List.take_length, snprintf_stored, List.take_of_length_le (by omega)]
    have hcl : (append_arg st a).cmd_len = (((append_arg st a).cmd).length : Int) := by
      rw [hcmd]
      simp only [append_arg, List.length_append]
      rw [snprintf_ret_of_le _ (by omega), wrap_int_of_range _ (by omega) (by omega), hlen]
      omega
    unfold append_args
    rw [if_pos (by omega), ih _ hcl, hcmd]
    · rw [arg_text_eq]
      simp [rendered_arguments]
    · rw [hcmd, List.length_append]
      omega

/-- C2: when the working directory `cwd` is obtained, `argv` has an `argv[0]` and the
whole rendering has at most 8091 characters, `execute_in_alpine_container` hands
`system()` exactly the fixed `docker run` prefix for `cwd` and `pathname` followed by
each of `argv[1:]` in order, preceded by one space and put between single quotes
exactly when it contains a space, a single quote or a double quote. -/
theorem execute_in_alpine_container_command (env : Env) (pathname cwd : CStr)
    (argv envp : List CStr)
    (hcwd : getcwd env 4096 = some cwd) (hargv : argv ≠ [])
    (hlen : (rendered_command cwd pathname argv).length ≤ 8091) :
    execute_in_alpine_container env (some pathname) argv envp =
      .system (rendered_command cwd pathname argv) := by
  cases argv with
  | nil => exact absurd rfl hargv
  | cons arg0 rest =>
    rw [command_base_eq] at hlen ⊢
    simp only [List.drop_succ_cons, List.drop_zero, List.length_append] at hlen ⊢
    have hinit : (init_state cwd pathname).cmd = command_base cwd pathname := by
      simp only [init_state, snprintf_stored]
      exact List.take_of_length_le (by omega)
    have hcl : (init_state cwd pathname).cmd_len
        = (((init_state cwd pathname).cmd).length : Int) := by
      rw [hinit]
      simp only [init_state]
      exact snprintf_ret_of_le _ (by omega)
    have := append_args_cmd rest (init_state cwd pathname) hcl (by rw [hinit]; exact hlen)
    simp only [execute_in_alpine_container, hcwd, build_command, this, hinit]

/-- C6: when the working directory is obtained and `argv` has an `argv[0]`,
`execute_in_alpine_container` ends in `system()` on a command of at most 8191
characters, whatever the number and length of the arguments; every `snprintf` on
`cmd` starts at an offset in `[0, 8092)`, is given the positive size `8192 - offset`
and stores its bytes, terminator included, inside the 8192 bytes of the buffer; once
`cmd_len` (as the loop test reads it) is 8092 or more nothing further is appended, and
a prefix of 8092 characters or more is the only write. -/
theorem execute_in_alpine_container_buffer_bound (env : Env) (pathname cwd : CStr)
    (argv envp : List CStr)
    (hcwd : getcwd env 4096 = some cwd) (hargv : argv ≠ []) :
    ∃ st, build_command cwd pathname argv = some st ∧
      execute_in_alpine_container env (some pathname) argv envp = .system st.cmd ∧
      st.cmd.length ≤ 8191 ∧
      (∀ w ∈ st.writes, 0 ≤ w.off ∧ w.off < 8092 ∧ 0 < w.size ∧
        (w.size : Int) = 8192 - w.off ∧ w.off + (w.bytes : Int) ≤ 8192) ∧
      (∀ (more : List CStr) (s : CmdState), 8092 ≤ to_size_t s.cmd_len →
        append_args more s = s) ∧
      (8092 ≤ (command_base cwd pathname).length →
        st.writes = [⟨0, 8192, command_base cwd pathname⟩] ∧
        st.cmd = (command_base cwd pathname).take 8191) := by
  cases argv with
  | nil => exact absurd rfl hargv
  | cons arg0 rest =>
    have hinv := append_args_inv rest _ (init_state_inv cwd pathname)
    refine ⟨append_args rest (init_state cwd pathname), rfl, ?_, hinv.2.1, hinv.2.2,
      append_args_stop, ?_⟩
    · simp only [execute_in_alpine_container, hcwd, build_command]
    · intro hbig
      have hstop : 8092 ≤ to_size_t (init_state cwd pathname).cmd_len := by
        have hr := snprintf_ret_range (command_base cwd pathname).length
        apply to_size_t_ge _ (by simp only [init_state]; omega) (by simp only [init_state]; omega)
        simp only [init_state, snprintf_ret, INT_MAX]
        split <;> omega
      rw [append_args_stop rest _ hstop]
      exact ⟨rfl, rfl⟩

end AlpineGccInterceptor

theorem strchr_eq_none_iff (s : CStr) (c : Char) : strchr s c = none ↔ c ∉ s := by
  rw [← strchr_isSome_iff, Option.not_isSome_iff_eq_none]

theorem strtok_tokens_aux_last (d : Char) (s acc : CStr) (hs : d ∉ s) :
    strtok_tokens_aux d s acc = if acc.reverse ++ s = [] then [] else [acc.reverse ++ s] := by
  induction s generalizing acc with
  | nil => simp [strtok_tokens_aux]
  | cons c cs ih =>
    have hc : c ≠ d := fun h => hs (by simp [h])
    have hcs : d ∉ cs := fun h => hs (by simp [h])
    rw [strtok_tokens_aux, if_neg hc, ih _ hcs]
    simp

theorem strtok_tokens_aux_append (d : Char) (s rest acc : CStr) (hs : d ∉ s) :
    strtok_tokens_aux d (s ++ d :: rest) acc =
      if acc.reverse ++ s = [] then strtok_tokens_aux d rest []
      else (acc.reverse ++ s) :: strtok_tokens_aux d rest [] := by
  induction s generalizing acc with
  | nil =>
    simp only [List.nil_append, List.append_nil, List.reverse_eq_nil_iff]
    rw [strtok_tokens_aux, if_pos rfl]
  | cons c cs ih =>
    have hc : c ≠ d := fun h => hs (by simp [h])
    have hcs : d ∉ cs := fun h => hs (by simp [h])
    rw [List.cons_append, strtok_tokens_aux, if_neg hc, ih _ hcs]
    simp

namespace AlpineGccInterceptor

theorem find_full_path_bare (env : Env) (file : CStr) (hbare : '/' ∉ file) :
    find_full_path env file = path_search env file (search_path env) := by
  unfold find_full_path search_path
  rw [(strchr_eq_none_iff file '/').mpr hbare]
  simp only [Option.isSome_none, Bool.false_eq_true, if_false]
  cases getenv env "PATH".toList with
  | none => rfl
  | some p => rfl

theorem path_search_none (env : Env) (file : CStr) (dirs : List CStr)
    (hfit : ∀ dir ∈ dirs, dir.length + 1 + file.length ≤ 4095)
    (hno : ∀ dir ∈ dirs, env.access_x (dir ++ "/".toList ++ file) = false) :
    path_search env file dirs = none := by
  induction dirs with
  | nil => rfl
  | cons d rest ih =>
    have hd : snprintf_stored 4096 (d ++ "/".toList ++ file) = d ++ "/".toList ++ file := by
      have := hfit d (by simp)
      exact List.take_of_length_le (by simp; omega)
    rw [path_search]
    simp only [hd, hno d (by simp), Bool.false_eq_true, if_false]
    exact ih (fun x hx => hfit x (by simp [hx])) (fun x hx => hno x (by simp [hx]))

theorem path_search_first (env : Env) (file : CStr) (before after : List CStr) (dir : CStr)
    (hfit : ∀ d ∈ before ++ dir :: after, d.length + 1 + file.length ≤ 4095)
    (hno : ∀ d ∈ before, env.access_x (d ++ "/".toList ++ file) = false)
    (hyes : env.access_x (dir ++ "/".toList ++ file) = true) :
    path_search env file (before ++ dir :: after) = some (dir ++ "/".toList ++ file) := by
  induction before with
  | nil =>
    have hd : snprintf_stored 4096 (dir ++ "/".toList ++ file) = dir ++ "/".toList ++ file := by
      have := hfit dir (by simp)
      exact List.take_of_length_le (by simp; omega)
    rw [List.nil_append, path_search]
    simp only [hd, hyes, if_true]
  | cons d rest ih =>
    have hd : snprintf_stored 4096 (d ++ "/".toList ++ file) = d ++ "/".toList ++ file := by
      have := hfit d (by simp)
      exact List.take_of_length_le (by simp; omega)
    rw [List.cons_append, path_search]
    simp only [hd, hno d (by simp), Bool.false_eq_true, if_false]
    exact ih (fun x hx => hfit x (by simp at hx ⊢; tauto)) (fun x hx => hno x (by simp [hx]))

/-- C5 (as the code has it): for a bare name whose candidates `dir/name` all fit the
4096-byte `full_path` (at most 4095 characters), `execvp` ends in `orig_execvp` with
the file and argv it was given when no directory of the search path has an
executable `dir/name` (so also when `PATH` is empty or unset), and otherwise
classifies `dir/name` for the first such directory in left-to-right order. -/
theorem execvp_resolution_order (env : Env) (file : CStr) (argv : List CStr)
    (hbare : '/' ∉ file)
    (hfit : ∀ dir ∈ search_path env, dir.length + 1 + file.length ≤ 4095) :
    ((∀ dir ∈ search_path env, env.access_x (dir ++ "/".toList ++ file) = false) →
      execvp env file argv = .orig_execvp file argv) ∧
    (∀ (before after : List CStr) (dir : CStr),
      search_path env = before ++ dir :: after →
      (∀ d ∈ before, env.access_x (d ++ "/".toList ++ file) = false) →
      env.access_x (dir ++ "/".toList ++ file) = true →
      execvp env file argv =
        if is_alpine_binary (some (dir ++ "/".toList ++ file)) = 1 ∧
            is_gcc_subprocess (some (dir ++ "/".toList ++ file)) = 1 then
          execute_in_alpine_container env (some (dir ++ "/".toList ++ file)) argv env.environ
        else .orig_execvp file argv) := by
  constructor
  · intro hno
    unfold execvp
    rw [find_full_path_bare env file hbare, path_search_none env file _ hfit hno]
  · intro before after dir hsp hno hyes
    unfold execvp
    rw [find_full_path_bare env file hbare, hsp,
      path_search_first env file before after dir (hsp ▸ hfit) hno hyes]
    simp only [classified_iff]

end AlpineGccInterceptor

/-- Every ordered list of non-empty, colon-free directories is the token list of
its `PATH` value. -/
theorem strtok_tokens_join_colon (dirs : List CStr)
    (h : ∀ d ∈ dirs, d ≠ [] ∧ ':' ∉ d) : strtok_tokens (join_colon dirs) ':' = dirs := by
  unfold strtok_tokens
  induction dirs with
  | nil => rfl
  | cons d rest ih =>
    have hd := h d (by simp)
    cases rest with
    | nil =>
      rw [join_colon, strtok_tokens_aux_last ':' d [] hd.2, List.reverse_nil, List.nil_append,
        if_neg hd.1]
    | cons e rest =>
      rw [join_colon, strtok_tokens_aux_append ':' d _ [] hd.2, List.reverse_nil,
        List.nil_append, if_neg hd.1, ih (fun x hx => h x (by simp [hx]))]

theorem getenv_head (env : Env) (name value : CStr) (rest : List CStr)
    (h : env.environ = (name ++ '=' :: value) :: rest) : getenv env name = some value := by
  have hp : (name ++ ['=']).isPrefixOf (name ++ '=' :: value) = true := by
    rw [ List.isPrefixOf_iff_prefix]
    exact ⟨value, by simp⟩
  unfold getenv
  rw [h, List.find?_cons_of_pos _ hp]
  simp only [Option.some.injEq]
  have : name ++ '=' :: value = (name ++ ['=']) ++ value := by simp
  rw [this]
  exact List.drop_left' (by simp)

namespace AlpineGccInterceptor

theorem long_path_env_access (p : CStr) :
    long_path_env.access_x p =
      (p == long_dir ++ "/".toList || p == "/opt/alpine/bin/cc1".toList) := rfl

theorem deep_dir_length (n : Nat) : (deep_dir n).length = 89 * n := by
  induction n with
  | zero => rfl
  | succ n ih =>
    simp only [deep_dir, List.length_cons, List.length_append, List.length_replicate, ih]
    omega

theorem colon_not_mem_deep_dir (n : Nat) : ':' ∉ deep_dir n := by
  induction n with
  | zero => simp [deep_dir]
  | succ n ih =>
    simp [deep_dir, ih]

theorem long_dir_length : long_dir.length = 4094 := deep_dir_length 46

theorem search_path_long_path_env :
    search_path long_path_env = [long_dir, "/opt/alpine/bin".toList] := by
  unfold search_path
  rw [getenv_head long_path_env "PATH".toList _ [] rfl]
  simp only [strtok_tokens]
  rw [strtok_tokens_aux_append ':' long_dir _ [] (colon_not_mem_deep_dir 46), if_neg]
  · have : strtok_tokens_aux ':' "/opt/alpine/bin".toList [] = ["/opt/alpine/bin".toList] := by
      decide
    rw [this, List.reverse_nil, List.nil_append]
  · intro h
    rw [List.reverse_nil, List.nil_append] at h
    have hl := long_dir_length
    rw [h] at hl
    exact absurd hl (by decide)

theorem execute_in_alpine_container_ne_orig_execvp (env : Env) (pathname : Option CStr)
    (argv envp : List CStr) (f : CStr) (a : List CStr) :
    execute_in_alpine_container env pathname argv envp ≠ .orig_execvp f a := by
  unfold execute_in_alpine_container
  split
  · simp
  · split
    · simp
    · split <;> simp

/-- C5 fails on a candidate longer than `full_path`: with `PATH` listing the
4094-character `long_dir` before `/opt/alpine/bin`, `long_dir/cc1` is not
executable and `/opt/alpine/bin/cc1` is, and it is classified for redirection;
yet `execvp` stops at the truncated candidate `long_dir/` and ends in
`orig_execvp`. -/
theorem execvp_truncated_candidate :
    search_path long_path_env = [long_dir, "/opt/alpine/bin".toList] ∧
    long_path_env.access_x (long_dir ++ "/".toList ++ "cc1".toList) = false ∧
    long_path_env.access_x ("/opt/alpine/bin".toList ++ "/".toList ++ "cc1".toList) = true ∧
    is_alpine_binary (some ("/opt/alpine/bin".toList ++ "/".toList ++ "cc1".toList)) = 1 ∧
    is_gcc_subprocess (some ("/opt/alpine/bin".toList ++ "/".toList ++ "cc1".toList)) = 1 ∧
    execvp long_path_env "cc1".toList ["cc1".toList] =
      .orig_execvp "cc1".toList ["cc1".toList] ∧
    execvp long_path_env "cc1".toList ["cc1".toList] ≠
      execute_in_alpine_container long_path_env
        (some ("/opt/alpine/bin".toList ++ "/".toList ++ "cc1".toList)) ["cc1".toList]
        long_path_env.environ := by
  have hsp := search_path_long_path_env
  have hlen := long_dir_length
  have hexec : execvp long_path_env "cc1".toList ["cc1".toList] =
      .orig_execvp "cc1".toList ["cc1".toList] := by
    have htrunc : snprintf_stored 4096 (long_dir ++ "/".toList ++ "cc1".toList) =
        long_dir ++ "/".toList := by
      unfold snprintf_stored
      have h1 : long_dir ++ "/".toList ++ "cc1".toList = (long_dir ++ "/".toList) ++ "cc1".toList :=
        rfl
      rw [h1]
      have h2 : (long_dir ++ "/".toList).length = 4096 - 1 := by
        rw [List.length_append, hlen]
        rfl
      exact List.take_left' h2
    have hps : path_search long_path_env "cc1".toList [long_dir, "/opt/alpine/bin".toList] =
        some (long_dir ++ "/".toList) := by
      rw [path_search]
      simp only [htrunc]
      rw [if_pos]
      rw [long_path_env_access, beq_self_eq_true, Bool.true_or]
    have hgcc : is_gcc_subprocess (some (long_dir ++ "/".toList)) = 0 := by
      rw [is_gcc_subprocess_some]
      have : final_component (long_dir ++ "/".toList) = [] :=
        final_component_append_cons long_dir [] (List.not_mem_nil _)
      rw [this]
      decide
    unfold execvp
    rw [find_full_path_bare long_path_env _ (by decide), hsp, hps]
    simp only [hgcc]
    rw [if_neg (fun h => h.2 rfl)]
  have hacc : long_path_env.access_x
      ("/opt/alpine/bin".toList ++ "/".toList ++ "cc1".toList) = true := by
    rw [long_path_env_access, Bool.or_eq_true]
    exact Or.inr (by decide)
  refine ⟨hsp, ?_, hacc, by decide, by decide, hexec, ?_⟩
  · have hl : (long_dir ++ "/".toList ++ "cc1".toList).length = 4098 := by
      rw [List.length_append, List.length_append, hlen]
      rfl
    have hne1 : long_dir ++ "/".toList ++ "cc1".toList ≠ long_dir ++ "/".toList := by
      intro h
      have h2 : (long_dir ++ "/".toList).length = 4095 := by
        rw [List.length_append, hlen]
        rfl
      rw [h, h2] at hl
      exact absurd hl (by decide)
    have hne2 : long_dir ++ "/".toList ++ "cc1".toList ≠ "/opt/alpine/bin/cc1".toList := by
      intro h
      rw [h] at hl
      exact absurd hl (by decide)
    rw [long_path_env_access, Bool.or_eq_false_iff]
    exact ⟨beq_eq_false_iff_ne.mpr hne1, beq_eq_false_iff_ne.mpr hne2⟩
  · rw [hexec]
    exact (execute_in_alpine_container_ne_orig_execvp _ _ _ _ _ _).symm

end AlpineGccInterceptor

namespace ExecInterceptor

/-- C1 at `argv = ["cc1", "-quiet", "in.c"]`, pathname `cc1`. -/
theorem execve_loader_substitution_cc1 :
    execve host_env "cc1".toList ["cc1".toList, "-quiet".toList, "in.c".toList]
        host_env.environ =
      .real_execve "/home/user/.local/alpine/lib/ld-musl-x86_64.so.1".toList
        ["/home/user/.local/alpine/lib/ld-musl-x86_64.so.1".toList, "cc1".toList,
          "-quiet".toList, "in.c".toList]
        host_env.environ :=
  (execve_loader_substitution host_env "cc1".toList "/home/user".toList
    ["cc1".toList, "-quiet".toList, "in.c".toList] host_env.environ
    rfl rfl (by decide) rfl (by decide) (by decide) (by decide)).1

/-- C8 at a host without the loader, and at a host without a working directory. -/
theorem execve_loader_fallback_cc1 :
    execve host_env_no_loader "cc1".toList ["cc1".toList, "-quiet".toList, "in.c".toList]
        host_env.environ =
      .real_execve "cc1".toList ["cc1".toList, "-quiet".toList, "in.c".toList]
        host_env.environ ∧
    execve host_env_no_cwd "cc1".toList ["cc1".toList, "-quiet".toList, "in.c".toList]
        host_env.environ =
      .real_execve "cc1".toList ["cc1".toList, "-quiet".toList, "in.c".toList]
        host_env.environ :=
  ⟨execve_loader_fallback host_env_no_loader "cc1".toList _ _ rfl (by decide)
      (Or.inr ⟨"/home/user".toList, by decide, by decide⟩),
    execve_loader_fallback host_env_no_cwd "cc1".toList _ _ rfl (by decide)
      (Or.inl (by decide))⟩

/-- C10 at `execvp("ls", ["ls", "-la"])`: `ls` is a bare name, not classified
foreign, and found on the search path as `/usr/bin/ls`; `execvp` ends in the real
`execve` with the pathname `ls`, which no search path resolves. -/
theorem execvp_ls_skips_path_search :
    '/' ∉ "ls".toList ∧ is_alpine_binary "ls".toList = 0 ∧
    host_env.access_x "/usr/bin/ls".toList = true ∧
    execvp host_env "ls".toList ["ls".toList, "-la".toList] =
      .real_execve "ls".toList ["ls".toList, "-la".toList] host_env.environ := by
  decide

end ExecInterceptor

namespace AlpineGccInterceptor

/-- C9 (as the code has it): when the working directory cannot be obtained, a request
that `execve` or `execvp` decides to redirect makes `execute_in_alpine_container`
fail, and the interposed function returns that `-1`: neither `system()` nor the
original launch primitive is called. -/
theorem execve_getcwd_failure (env : Env) (hcwd : getcwd env 4096 = none) :
    (∀ (pathname : Option CStr) (argv envp : List CStr),
      is_alpine_binary pathname = 1 → is_gcc_subprocess pathname = 1 →
      execve env pathname argv envp = .ret (-1)) ∧
    (∀ (file full_path : CStr) (argv : List CStr),
      find_full_path env file = some full_path →
      is_alpine_binary (some full_path) = 1 → is_gcc_subprocess (some full_path) = 1 →
      execvp env file argv = .ret (-1)) := by
  constructor
  · intro pathname argv envp h1 h2
    rw [execve_eq_ite, if_pos ⟨h1, h2⟩]
    simp only [execute_in_alpine_container, hcwd]
  · intro file full_path argv hf h1 h2
    unfold execvp
    rw [hf]
    simp only [classified_iff]
    rw [if_pos ⟨h1, h2⟩]
    simp only [execute_in_alpine_container, hcwd]

/-- C9 at `/opt/alpine/bin/cc1` on a host without a working directory. -/
theorem execve_getcwd_failure_cc1 :
    execve host_env_no_cwd (some "/opt/alpine/bin/cc1".toList) ["cc1".toList, "in.c".toList]
      host_env.environ = .ret (-1) :=
  (execve_getcwd_failure host_env_no_cwd (by decide)).1 _ _ _ (by decide) (by decide)

/-- C9 fails: on a host without a working directory the redirected launch of
`/opt/alpine/bin/cc1` returns `-1` from `execve` and from `execvp`, with no call
of the original primitive. -/
theorem execve_no_fallback_without_cwd :
    is_alpine_binary (some "/opt/alpine/bin/cc1".toList) = 1 ∧
    is_gcc_subprocess (some "/opt/alpine/bin/cc1".toList) = 1 ∧
    getcwd host_env_no_cwd 4096 = none ∧
    execve host_env_no_cwd (some "/opt/alpine/bin/cc1".toList) ["cc1".toList, "in.c".toList]
      host_env.environ = .ret (-1) ∧
    execve host_env_no_cwd (some "/opt/alpine/bin/cc1".toList) ["cc1".toList, "in.c".toList]
      host_env.environ ≠
      .orig_execve (some "/opt/alpine/bin/cc1".toList) ["cc1".toList, "in.c".toList]
        host_env.environ ∧
    execvp host_env_no_cwd "cc1".toList ["cc1".toList, "in.c".toList] = .ret (-1) ∧
    execvp host_env_no_cwd "cc1".toList ["cc1".toList, "in.c".toList] ≠
      .orig_execvp "cc1".toList ["cc1".toList, "in.c".toList] := by
  decide

set_option maxRecDepth 8000 in
/-- C2 at `argv = ["cc1", "-O2", "hello world"]`: `-O2` is appended verbatim,
`hello world` between single quotes. -/
theorem execute_in_alpine_container_command_cc1 :
    execute_in_alpine_container host_env (some "/opt/alpine/bin/cc1".toList)
        ["cc1".toList, "-O2".toList, "hello world".toList] host_env.environ =
      .system ("docker run --rm -i --network=none -v '/home/user:/workspace' -w /workspace ".toList
        ++ "-v '/opt/alpine/bin/cc1:/opt/alpine/bin/cc1:ro' alpine:latest ".toList
        ++ "/opt/alpine/bin/cc1 -O2 'hello world'".toList) :=
  execute_in_alpine_container_command host_env "/opt/alpine/bin/cc1".toList "/home/user".toList
    ["cc1".toList, "-O2".toList, "hello world".toList] host_env.environ
    (by decide) (by decide) (by decide)

/-- C6 at `argv = ["cc1", "-O2", "hello world"]`. -/
theorem execute_in_alpine_container_buffer_bound_cc1 :
    ∃ st, build_command "/home/user".toList "/opt/alpine/bin/cc1".toList
        ["cc1".toList, "-O2".toList, "hello world".toList] = some st ∧
      execute_in_alpine_container host_env (some "/opt/alpine/bin/cc1".toList)
        ["cc1".toList, "-O2".toList, "hello world".toList] host_env.environ = .system st.cmd ∧
      st.cmd.length ≤ 8191 ∧
      (∀ w ∈ st.writes, 0 ≤ w.off ∧ w.off < 8092 ∧ 0 < w.size ∧
        (w.size : Int) = 8192 - w.off ∧ w.off + (w.bytes : Int) ≤ 8192) ∧
      (∀ (more : List CStr) (s : CmdState), 8092 ≤ to_size_t s.cmd_len →
        append_args more s = s) ∧
      (8092 ≤ (command_base "/home/user".toList "/opt/alpine/bin/cc1".toList).length →
        st.writes = [⟨0, 8192, command_base "/home/user".toList "/opt/alpine/bin/cc1".toList⟩] ∧
        st.cmd = (command_base "/home/user".toList "/opt/alpine/bin/cc1".toList).take 8191) :=
  execute_in_alpine_container_buffer_bound host_env "/opt/alpine/bin/cc1".toList
    "/home/user".toList ["cc1".toList, "-O2".toList, "hello world".toList] host_env.environ
    (by decide) (by decide)

/-- C5 at `PATH=/usr/bin:/opt/alpine/bin` and the name `cc1`: `/usr/bin/cc1` is not
executable, `/opt/alpine/bin/cc1` is, and that path is the one classified. -/
theorem execvp_resolution_order_cc1 :
    execvp host_env "cc1".toList ["cc1".toList, "in.c".toList] =
      if is_alpine_binary (some ("/opt/alpine/bin".toList ++ "/".toList ++ "cc1".toList)) = 1 ∧
          is_gcc_subprocess (some ("/opt/alpine/bin".toList ++ "/".toList ++ "cc1".toList)) = 1
      then
        execute_in_alpine_container host_env
          (some ("/opt/alpine/bin".toList ++ "/".toList ++ "cc1".toList))
          ["cc1".toList, "in.c".toList] host_env.environ
      else .orig_execvp "cc1".toList ["cc1".toList, "in.c".toList] :=
  (execvp_resolution_order host_env "cc1".toList ["cc1".toList, "in.c".toList]
    (by decide) (by decide)).2 ["/usr/bin".toList] [] "/opt/alpine/bin".toList
    (by decide) (by decide) (by decide)

end AlpineGccInterceptor
